import Mathlib

/-!
Shallow embedding of the contact-manager core from `bot.py`: validated
fields (Name, Phone, Birthday), contact records, the address book and its
upcoming-birthdays query.  Python's mutable objects are modelled by explicit
state passing; a raised exception is an `Except.error` value, and a mutating
operation that can raise mid-way returns the state as it stands at the raise
alongside the error.  Python `datetime.date` values are triples of naturals;
date comparison is by proleptic-Gregorian day number, which agrees with
Python's field-lexicographic order on valid dates.
-/

namespace Bot

/-- Python exception values raised by the core: `ValueError` or `KeyError`,
with their message string. -/
inductive PyErr where
  | valueError (msg : String)
  | keyError (msg : String)
deriving Repr, DecidableEq

/-- A Python `datetime.date`: proleptic Gregorian year, month, day. -/
structure Date where
  year : Nat
  month : Nat
  day : Nat
deriving Repr, DecidableEq

/-- Gregorian leap-year rule, as used by Python's `calendar`/`datetime`. -/
def isLeap (y : Nat) : Bool := (y % 4 == 0 && y % 100 != 0) || y % 400 == 0

/-- Number of days in a month of a given year. -/
def daysInMonth (y m : Nat) : Nat :=
  if m == 2 then (if isLeap y then 29 else 28)
  else if m == 4 || m == 6 || m == 9 || m == 11 then 30
  else 31

/-- Days in year `y` before the first day of month `m`. -/
def daysBeforeMonth (y m : Nat) : Nat :=
  (List.range (m - 1)).foldl (fun acc i => acc + daysInMonth y (i + 1)) 0

/-- Rata-die style day number of a date (1 = 01.01.0001); `datetime.date`
comparison coincides with comparison of these numbers on valid dates. -/
def Date.toDays (d : Date) : Nat :=
  365 * (d.year - 1) + (d.year - 1) / 4 + (d.year - 1) / 400 - (d.year - 1) / 100
    + daysBeforeMonth d.year d.month + d.day

/-- The validity condition `datetime.date` enforces on construction. -/
def Date.Valid (d : Date) : Prop :=
  1 ≤ d.year ∧ d.year ≤ 9999 ∧ 1 ≤ d.month ∧ d.month ≤ 12 ∧
    1 ≤ d.day ∧ d.day ≤ daysInMonth d.year d.month

instance (d : Date) : Decidable d.Valid := by
  unfold Date.Valid; infer_instance

/-- Python `date.replace(year=y)`: keeps month and day, revalidates through
the `date` constructor, raising `ValueError` if the result is invalid
(notably Feb 29 projected onto a non-leap year). -/
def Date.replaceYear (d : Date) (y : Nat) : Except PyErr Date :=
  if 1 ≤ y ∧ y ≤ 9999 then
    if d.day ≤ daysInMonth y d.month then Except.ok ⟨y, d.month, d.day⟩
    else Except.error (PyErr.valueError "day is out of range for month")
  else Except.error (PyErr.valueError "year is out of range")

/-- Characters removed by Python's `str.strip()` (the ASCII whitespace
subset, which covers every input the program handles). -/
def isSpace (c : Char) : Bool :=
  c == ' ' || c == '\t' || c == '\n' || c == '\r' || c == '\x0b' || c == '\x0c'

/-- `str.strip()` on a character list: drop leading and trailing whitespace. -/
def stripChars (l : List Char) : List Char :=
  ((l.dropWhile isSpace).reverse.dropWhile isSpace).reverse

/-- Python `value.strip()`. -/
def pyStrip (s : String) : String := String.mk (stripChars s.data)

/-- Numeric value of a digit string, as `int()` of its decimal digits. -/
def digitsVal (l : List Char) : Nat := l.foldl (fun a c => 10 * a + (c.toNat - 48)) 0

/-- All characters are decimal digits (`\d` on the program's inputs). -/
def allDigits (l : List Char) : Bool := l.all Char.isDigit

/-- `Phone`: wraps a validated ten-digit string. -/
structure Phone where
  value : String
deriving Repr, DecidableEq

/-- `Phone.isValid`: `re.fullmatch(r"\d{10}", phone)` — the raw, untrimmed
string must consist of exactly ten decimal digits. -/
def Phone.isValid (phone : String) : Bool :=
  phone.data.length == 10 && allDigits phone.data

/-- `Phone.__init__`: validate the raw string, then store its stripped form
(`Field.__init__` strips); raise `ValueError` otherwise. -/
def Phone.init (value : String) : Except PyErr Phone :=
  if Phone.isValid value then Except.ok ⟨pyStrip value⟩
  else Except.error (PyErr.valueError "Phone number must contain 10 digits")

/-- `Phone.__eq__`: value equality by exact string match. -/
def Phone.eq (a b : Phone) : Bool := a.value == b.value

/-- `Phone.edit`: validate the replacement before assigning; on failure the
phone is returned unchanged alongside the raised error. -/
def Phone.edit (p : Phone) (newValue : String) : Except (PyErr × Phone) Phone :=
  if Phone.isValid newValue then Except.ok ⟨pyStrip newValue⟩
  else Except.error (PyErr.valueError "Phone number must contain 10 digits", p)

/-- `Name`: wraps a non-empty (after stripping) string. -/
structure Name where
  value : String
deriving Repr, DecidableEq

/-- `Name.__init__`. -/
def Name.init (value : String) : Except PyErr Name :=
  if (stripChars value.data).length == 0 then
    Except.error (PyErr.valueError "Name can not be empty!")
  else Except.ok ⟨pyStrip value⟩

/-- Split a character list at every `'.'`, as the literal dots of the
`"%d.%m.%Y"` pattern do; never returns an empty list of parts. -/
def splitDots : List Char → List (List Char)
  | [] => [[]]
  | c :: rest =>
    if c == '.' then [] :: splitDots rest
    else
      match splitDots rest with
      | [] => [[c]]
      | p :: ps => (c :: p) :: ps

/-- CPython `_strptime`'s `%d`/`%m` field: one or two digits whose value
lies in `1..hi` (`hi` = 31 for days, 12 for months); zero padding optional. -/
def dayOrMonthField (l : List Char) (hi : Nat) : Option Nat :=
  if (l.length == 1 || l.length == 2) && allDigits l then
    if 1 ≤ digitsVal l ∧ digitsVal l ≤ hi then some (digitsVal l) else none
  else none

/-- CPython `_strptime`'s `%Y` field: exactly four digits. -/
def yearField (l : List Char) : Option Nat :=
  if l.length == 4 && allDigits l then some (digitsVal l) else none

/-- `datetime.strptime(s, "%d.%m.%Y").date()`: full-string match of
day-dot-month-dot-year, then the `date` constructor's validity check;
`none` models the `ValueError` the `Birthday` constructor catches. -/
def strptimeDMY (s : String) : Option Date :=
  match splitDots s.data with
  | [ds, ms, ys] =>
    match dayOrMonthField ds 31, dayOrMonthField ms 12, yearField ys with
    | some d, some m, some y =>
      if 1 ≤ y ∧ d ≤ daysInMonth y m then some ⟨y, m, d⟩ else none
    | _, _, _ => none
  | _ => none

/-- `Birthday`: wraps a validated, non-future date. -/
structure Birthday where
  value : Date
deriving Repr, DecidableEq

/-- `Birthday.__init__`: parse the stripped string with `strptime`, reject a
date strictly after `today` (`datetime.today().date()`, passed explicitly). -/
def Birthday.init (value : String) (today : Date) : Except PyErr Birthday :=
  match strptimeDMY (pyStrip value) with
  | none => Except.error (PyErr.valueError "Invalid date format. Use DD.MM.YYYY")
  | some birthday =>
    if today.toDays < birthday.toDays then
      Except.error (PyErr.valueError "Birthday from the future is not allowed!")
    else Except.ok ⟨birthday⟩

/-- Two-character zero-padded decimal rendering (`%d`, `%m` of `strftime`). -/
def pad2 (n : Nat) : List Char := [Nat.digitChar (n / 10), Nat.digitChar (n % 10)]

/-- Four-character zero-padded decimal rendering (`%Y` of `strftime`). -/
def pad4 (n : Nat) : List Char :=
  [Nat.digitChar (n / 1000), Nat.digitChar (n / 100 % 10),
   Nat.digitChar (n / 10 % 10), Nat.digitChar (n % 10)]

/-- `date.strftime("%d.%m.%Y")`. -/
def Date.strftimeDMY (d : Date) : String :=
  String.mk (pad2 d.day ++ '.' :: pad2 d.month ++ '.' :: pad4 d.year)

/-- `Birthday.__str__`. -/
def Birthday.str (b : Birthday) : String := Date.strftimeDMY b.value

/-- `Record`: one name, an ordered list of phones, an optional birthday. -/
structure Record where
  name : Name
  phones : List Phone
  birthday : Option Birthday
deriving Repr, DecidableEq

/-- `Record.__init__`: validate the name; phones start empty, birthday unset. -/
def Record.init (name : String) : Except PyErr Record :=
  (Name.init name).map fun n => ⟨n, [], none⟩

/-- `Record.add_phone`: validate and append. -/
def Record.add_phone (r : Record) (phone : String) : Except PyErr Record :=
  (Phone.init phone).map fun p => { r with phones := r.phones ++ [p] }

/-- `Record.find_phone`: validate the query string, then return the first
stored phone equal by value; raise `ValueError` if none matches. -/
def Record.find_phone (r : Record) (phone : String) : Except PyErr Phone :=
  match Phone.init phone with
  | Except.error e => Except.error e
  | Except.ok q =>
    match r.phones.find? (fun p => Phone.eq p q) with
    | some p => Except.ok p
    | none => Except.error (PyErr.valueError ("Phone number " ++ phone ++ " not found"))

/-- `list.remove` of the first phone
with the given value. -/
def removeFirst (ps : List Phone) (v : String) : List Phone :=
  match ps with
  | [] => []
  | p :: rest => if p.value == v then rest else p :: removeFirst rest v

/-- `Record.remove_phone`: find (which may raise), then `list.remove` the
first structurally-equal element. -/
def Record.remove_phone (r : Record) (phone : String) : Except PyErr Record :=
  (r.find_phone phone).map fun p => { r with phones := removeFirst r.phones p.value }

/-- Replace the value of the first phone equal to `v` by `newV` (the effect
of `edit` on the aliased list element). -/
def replaceFirst (ps : List Phone) (v newV : String) : List Phone :=
  match ps with
  | [] => []
  | p :: rest => if p.value == v then Phone.mk newV :: rest else p :: replaceFirst rest v newV

/-- Walk the phone list as `find_phone` does and call `edit` on the first
match; the error branch carries the list as it stands at the raise. -/
def editPhoneInList (oldRaw newRaw v : String) (ps : List Phone) :
    Except (PyErr × List Phone) (List Phone) :=
  match ps with
  | [] => Except.error (PyErr.valueError ("Phone number " ++ oldRaw ++ " not found"), [])
  | p :: rest =>
    if p.value == v then
      match p.edit newRaw with
      | Except.ok p2 => Except.ok (p2 :: rest)
      | Except.error (e, p2) => Except.error (e, p2 :: rest)
    else
      match editPhoneInList oldRaw newRaw v rest with
      | Except.ok rest2 => Except.ok (p :: rest2)
      | Except.error (e, rest2) => Except.error (e, p :: rest2)

/-- `Record.edit_phone`: `self.find_phone(old_phone).edit(new_phone)`; the
error branch carries the record as it stands at the raise. -/
def Record.edit_phone (r : Record) (oldPhone newPhone : String) :
    Except (PyErr × Record) Record :=
  match Phone.init oldPhone with
  | Except.error e => Except.error (e, r)
  | Except.ok q =>
    match editPhoneInList oldPhone newPhone q.value r.phones with
    | Except.ok ps => Except.ok { r with phones := ps }
    | Except.error (e, ps) => Except.error (e, { r with phones := ps })

/-- `Record.add_birthday`: validate and overwrite the stored birthday. -/
def Record.add_birthday (r : Record) (birthday : String) (today : Date) :
    Except PyErr Record :=
  (Birthday.init birthday today).map fun b => { r with birthday := some b }

/-- `AddressBook`: the `UserDict` mapping, as an insertion-ordered
association list with unique keys (Python `dict` semantics). -/
structure AddressBook where
  data : List (String × Record)
deriving Repr, DecidableEq

/-- `dict` assignment `self.data[k] = r`: update the existing entry in
place, or append a new one. -/
def setKey (l : List (String × Record)) (k : String) (r : Record) :
    List (String × Record) :=
  match l with
  | [] => [(k, r)]
  | kv :: rest => if kv.1 == k then (k, r) :: rest else kv :: setKey rest k r

/-- `AddressBook.add_record`: insert/overwrite under the record's own name. -/
def AddressBook.add_record (book : AddressBook) (record : Record) : AddressBook :=
  ⟨setKey book.data record.name.value record⟩

/-- `AddressBook.find`: return the record, or `None` when the name is absent. -/
def AddressBook.find (book : AddressBook) (name : String) : Option Record :=
  (book.data.find? (fun kv => kv.1 == name)).map Prod.snd

/-- `del self.data[k]`: remove the entry with the given key. -/
def delKey (l : List (String × Record)) (k : String) : List (String × Record) :=
  match l with
  | [] => []
  | kv :: rest => if kv.1 == k then rest else kv :: delKey rest k

/-- `AddressBook.delete`: remove by name, raising `KeyError` when absent. -/
def AddressBook.delete (book : AddressBook) (name : String) :
    Except PyErr AddressBook :=
  if book.data.any (fun kv => kv.1 == name) then Except.ok ⟨delKey book.data name⟩
  else Except.error (PyErr.keyError ("Record with name " ++ name ++ " not found"))

/-- Loop body of `get_upcoming_birthdays` for one record: project the
birthday onto `today`'s year, roll forward one year if it fell before
`today`, and emit a name/congratulation-date entry when the occurrence lies
within `today + timedelta(days=7)`; `date.replace` may raise. -/
def processRecord (record : Record) (today : Date) :
    Except PyErr (Option (String × String)) :=
  match record.birthday with
  | none => Except.ok none
  | some b =>
    match Date.replaceYear b.value today.year with
    | Except.error e => Except.error e
    | Except.ok bty =>
      match (if bty.toDays < today.toDays then Date.replaceYear bty (today.year + 1)
             else Except.ok bty) with
      | Except.error e => Except.error e
      | Except.ok bty2 =>
        if today.toDays ≤ bty2.toDays ∧ bty2.toDays ≤ today.toDays + 7 then
          Except.ok (some (record.name.value, Date.strftimeDMY bty2))
        else Except.ok none

/-- The record loop of `get_upcoming_birthdays`: entries are appended in
iteration order; a raise aborts the whole call. -/
def collectUpcoming (rs : List (String × Record)) (today : Date) :
    Except PyErr (List (String × String)) :=
  match rs with
  | [] => Except.ok []
  | (_, r) :: rest =>
    match processRecord r today with
    | Except.error e => Except.error e
    | Except.ok none => collectUpcoming rest today
    | Except.ok (some entry) => (collectUpcoming rest today).map (entry :: ·)

/-- `AddressBook.get_upcoming_birthdays` with the reference date passed
explicitly for `datetime.today().date()`. -/
def AddressBook.get_upcoming_birthdays (book : AddressBook) (today : Date) :
    Except PyErr (List (String × String)) :=
  collectUpcoming book.data today

/-- State-threaded form of the record loop: each iteration hands back the
record it read, so that the book the caller ends up with is part of the
result and non-mutation is a provable statement rather than a typing
convention. -/
def collectUpcomingSt (rs : List (String × Record)) (today : Date) :
    Except PyErr (List (String × String)) × List (String × Record) :=
  match rs with
  | [] => (Except.ok [], [])
  | (k, r) :: rest =>
    match processRecord r today with
    | Except.error e => (Except.error e, (k, r) :: rest)
    | Except.ok none =>
      match collectUpcomingSt rest today with
      | (res, rest2) => (res, (k, r) :: rest2)
    | Except.ok (some entry) =>
      match collectUpcomingSt rest today with
      | (res, rest2) => (res.map (entry :: ·), (k, r) :: rest2)

/-- The entry `processRecord` contributes when it does not raise. -/
def okEntry (r : Record) (today : Date) : Option (String × String) :=
  match processRecord r today with
  | Except.ok o => o
  | Except.error _ => none

/-- Mutating address-book operations the key invariant ranges over. -/
inductive BookOp where
  | add (r : Record)
  | del (name : String)

/-- Apply one operation; a `delete` that raises leaves the book unchanged. -/
def applyOp (book : AddressBook) : BookOp → AddressBook
  | BookOp.add r => book.add_record r
  | BookOp.del n =>
    match book.delete n with
    | Except.ok b2 => b2
    | Except.error _ => book

/-- Run a sequence of operations starting from the empty book. -/
def runOps (ops : List BookOp) : AddressBook := ops.foldl applyOp ⟨[]⟩

/-- The address-book invariant: keys are unique and each key equals the
name field of the record it maps to. -/
def goodBook (book : AddressBook) : Prop :=
  (book.data.map Prod.fst).Nodup ∧ ∀ kv ∈ book.data, kv.1 = kv.2.name.value

/-!  Helper lemmas shared by the claim theorems. -/

theorem isSpace_eq_false_of_isDigit (c : Char) (h : c.isDigit = true) :
    isSpace c = false := by
  cases hs : isSpace c
  · rfl
  · exfalso
    unfold isSpace at hs
    simp only [Bool.or_eq_true, beq_iff_eq] at hs
    rcases hs with ((((rfl | rfl) | rfl) | rfl) | rfl) | rfl <;> exact absurd h (by decide)

theorem dropWhile_isSpace_of_none (l : List Char) (h : ∀ c ∈ l, isSpace c = false) :
    l.dropWhile isSpace = l := by
  cases l with
  | nil => rfl
  | cons c rest => simp [List.dropWhile_cons, h c (by simp)]

theorem stripChars_eq_self (l : List Char) (h : ∀ c ∈ l, isSpace c = false) :
    stripChars l = l := by
  unfold stripChars
  rw [dropWhile_isSpace_of_none l h,
    dropWhile_isSpace_of_none l.reverse (fun c hc => h c (List.mem_reverse.mp hc)),
    List.reverse_reverse]

theorem pyStrip_eq_self_of_digits (s : String) (h : allDigits s.data = true) :
    pyStrip s = s := by
  have hns : ∀ c ∈ s.data, isSpace c = false := fun c hc =>
    isSpace_eq_false_of_isDigit c (List.all_eq_true.mp h c hc)
  unfold pyStrip
  rw [stripChars_eq_self s.data hns]

/-!  C4: phone validation. -/

/-- C4 counterexample: for `" 1234567890"` the trimmed string matches
`^\d{10}$`, yet construction fails — validation runs on the raw, untrimmed
string, so the claim's "trims first, then validates" reading is false. -/
theorem phone_trim_counterexample :
    Phone.isValid (pyStrip " 1234567890") = true ∧
      Phone.init " 1234567890" =
        Except.error (PyErr.valueError "Phone number must contain 10 digits") :=
  ⟨rfl, rfl⟩

/-- C4 (amended): Phone construction succeeds exactly when the raw input
string itself matches `^\d{10}$`; a valid value contains no whitespace, so
the stored (stripped) value is the raw string and `render` returns it
unchanged; otherwise construction fails with the format `ValueError`. -/
theorem phone_raw_validation (s : String) :
    (Phone.isValid s = true → Phone.init s = Except.ok ⟨s⟩) ∧
      (Phone.isValid s = false →
        Phone.init s = Except.error (PyErr.valueError "Phone number must contain 10 digits")) := by
  constructor
  · intro h
    have hd : allDigits s.data = true := by
      unfold Phone.isValid at h
      simp only [Bool.and_eq_true] at h
      exact h.2
    simp [Phone.init, h, pyStrip_eq_self_of_digits s hd]
  · intro h
    simp [Phone.init, h]

/-- C4 witness: a concrete ten-digit string is accepted verbatim. -/
theorem phone_raw_validation_witness :
    Phone.isValid "0123456789" = true ∧
      Phone.init "0123456789" = Except.ok ⟨"0123456789"⟩ :=
  ⟨rfl, (phone_raw_validation "0123456789").1 rfl⟩

/-!  C5: birthday format, rendering and round-trip. -/

theorem pyStrip_eq_self_of_noSpace (s : String) (h : ∀ c ∈ s.data, isSpace c = false) :
    pyStrip s = s := by
  unfold pyStrip
  rw [stripChars_eq_self s.data h]

theorem digitChar_isDigit (n : Nat) (h : n ≤ 9) : (Nat.digitChar n).isDigit = true := by
  interval_cases n <;> decide

theorem digitChar_ne_dot (n : Nat) (h : n ≤ 9) : (Nat.digitChar n == '.') = false := by
  interval_cases n <;> decide

theorem digitChar_toNat (n : Nat) (h : n ≤ 9) : (Nat.digitChar n).toNat - 48 = n := by
  interval_cases n <;> decide

theorem pad2_no_dot (n : Nat) (h : n ≤ 99) : ∀ c ∈ pad2 n, (c == '.') = false := by
  intro c hc
  have h1 : n / 10 ≤ 9 := by omega
  have h2 : n % 10 ≤ 9 := by omega
  simp only [pad2, List.mem_cons, List.not_mem_nil, or_false] at hc
  rcases hc with rfl | rfl
  · exact digitChar_ne_dot _ h1
  · exact digitChar_ne_dot _ h2

theorem pad4_no_dot (n : Nat) (h : n ≤ 9999) : ∀ c ∈ pad4 n, (c == '.') = false := by
  intro c hc
  have h1 : n / 1000 ≤ 9 := by omega
  have h2 : n / 100 % 10 ≤ 9 := by omega
  have h3 : n / 10 % 10 ≤ 9 := by omega
  have h4 : n % 10 ≤ 9 := by omega
  simp only [pad4, List.mem_cons, List.not_mem_nil, or_false] at hc
  rcases hc with rfl | rfl | rfl | rfl
  · exact digitChar_ne_dot _ h1
  · exact digitChar_ne_dot _ h2
  · exact digitChar_ne_dot _ h3
  · exact digitChar_ne_dot _ h4

theorem allDigits_pad2 (n : Nat) (h : n ≤ 99) : allDigits (pad2 n) = true := by
  have h1 : n / 10 ≤ 9 := by omega
  have h2 : n % 10 ≤ 9 := by omega
  simp [allDigits, pad2, digitChar_isDigit _ h1, digitChar_isDigit _ h2]

theorem allDigits_pad4 (n : Nat) (h : n ≤ 9999) : allDigits (pad4 n) = true := by
  have h1 : n / 1000 ≤ 9 := by omega
  have h2 : n / 100 % 10 ≤ 9 := by omega
  have h3 : n / 10 % 10 ≤ 9 := by omega
  have h4 : n % 10 ≤ 9 := by omega
  simp [allDigits, pad4, digitChar_isDigit _ h1, digitChar_isDigit _ h2,
    digitChar_isDigit _ h3, digitChar_isDigit _ h4]

theorem digitsVal_pad2 (n : Nat) (h : n ≤ 99) : digitsVal (pad2 n) = n := by
  have h1 : n / 10 ≤ 9 := by omega
  have h2 : n % 10 ≤ 9 := by omega
  simp only [digitsVal, pad2, List.foldl_cons, List.foldl_nil]
  rw [digitChar_toNat _ h1, digitChar_toNat _ h2]
  omega

theorem digitsVal_pad4 (n : Nat) (h : n ≤ 9999) : digitsVal (pad4 n) = n := by
  have h1 : n / 1000 ≤ 9 := by omega
  have h2 : n / 100 % 10 ≤ 9 := by omega
  have h3 : n / 10 % 10 ≤ 9 := by omega
  have h4 : n % 10 ≤ 9 := by omega
  simp only [digitsVal, pad4, List.foldl_cons, List.foldl_nil]
  rw [digitChar_toNat _ h1, digitChar_toNat _ h2, digitChar_toNat _ h3, digitChar_toNat _ h4]
  omega

theorem splitDots_no_dot (a : List Char) (h : ∀ c ∈ a, (c == '.') = false) :
    splitDots a = [a] := by
  induction a with
  | nil => rfl
  | cons c rest ih =>
    have hc : (c == '.') = false := h c (by simp)
    have hrest : splitDots rest = [rest] := ih (fun x hx => h x (by simp [hx]))
    simp [splitDots, hc, hrest]

theorem splitDots_append (a rest : List Char) (h : ∀ c ∈ a, (c == '.') = false) :
    splitDots (a ++ '.' :: rest) = a :: splitDots rest := by
  induction a with
  | nil => simp [splitDots]
  | cons c a2 ih =>
    have hc : (c == '.') = false := h c (by simp)
    have h2 := ih (fun x hx => h x (by simp [hx]))
    simp [splitDots, hc, h2]

theorem daysInMonth_le (y m : Nat) : daysInMonth y m ≤ 31 := by
  unfold daysInMonth
  split_ifs <;> omega

theorem strptimeDMY_strftimeDMY (d : Date) (h : d.Valid) :
    strptimeDMY (Date.strftimeDMY d) = some d := by
  obtain ⟨h1, h2, h3, h4, h5, h6⟩ := h
  have hm31 : daysInMonth d.year d.month ≤ 31 := daysInMonth_le d.year d.month
  have hd99 : d.day ≤ 99 := by omega
  have hm99 : d.month ≤ 99 := by omega
  have hsplit : splitDots (Date.strftimeDMY d).data = [pad2 d.day, pad2 d.month, pad4 d.year] := by
    show splitDots (pad2 d.day ++ '.' :: (pad2 d.month ++ '.' :: pad4 d.year)) = _
    rw [splitDots_append _ _ (pad2_no_dot d.day hd99),
      splitDots_append _ _ (pad2_no_dot d.month hm99),
      splitDots_no_dot _ (pad4_no_dot d.year h2)]
  have hday : dayOrMonthField (pad2 d.day) 31 = some d.day := by
    unfold dayOrMonthField
    rw [allDigits_pad2 d.day hd99, digitsVal_pad2 d.day hd99]
    have hcond : 1 ≤ d.day ∧ d.day ≤ 31 := ⟨h5, by omega⟩
    simp [pad2, hcond]
  have hmon : dayOrMonthField (pad2 d.month) 12 = some d.month := by
    unfold dayOrMonthField
    rw [allDigits_pad2 d.month hm99, digitsVal_pad2 d.month hm99]
    have hcond : 1 ≤ d.month ∧ d.month ≤ 12 := ⟨h3, h4⟩
    simp [pad2, hcond]
  have hyear : yearField (pad4 d.year) = some d.year := by
    unfold yearField
    rw [allDigits_pad4 d.year h2, digitsVal_pad4 d.year h2]
    simp [pad4]
  unfold strptimeDMY
  rw [hsplit]
  simp [hday, hmon, hyear, h1, h6]

theorem strftimeDMY_noSpace (d : Date) (h2 : d.year ≤ 9999) (hd99 : d.day ≤ 99)
    (hm99 : d.month ≤ 99) : ∀ c ∈ (Date.strftimeDMY d).data, isSpace c = false := by
  intro c hc
  have hdot : isSpace '.' = false := by decide
  have hdig : ∀ x ∈ pad2 d.day ++ pad2 d.month ++ pad4 d.year, isSpace x = false := by
    intro x hx
    simp only [List.mem_append] at hx
    apply isSpace_eq_false_of_isDigit
    rcases hx with (hx | hx) | hx
    · exact List.all_eq_true.mp (allDigits_pad2 d.day hd99) x hx
    · exact List.all_eq_true.mp (allDigits_pad2 d.month hm99) x hx
    · exact List.all_eq_true.mp (allDigits_pad4 d.year h2) x hx
  have hc2 : c ∈ pad2 d.day ++ '.' :: (pad2 d.month ++ '.' :: pad4 d.year) := hc
  simp only [List.mem_append, List.mem_cons] at hc2
  rcases hc2 with hx | rfl | hx | rfl | hx
  · exact hdig c (by simp [hx])
  · exact hdot
  · exact hdig c (by simp [hx])
  · exact hdot
  · exact hdig c (by simp [hx])

/-- C5 counterexample: `"5.6.1990"` is not in two-digit `DD.MM.YYYY` form,
yet Birthday construction succeeds (CPython `strptime` accepts one-digit
day and month), and `render` returns the zero-padded `"05.06.1990"`, so the
round-trip also fails. -/
theorem birthday_format_counterexample :
    Birthday.init "5.6.1990" ⟨2024, 1, 1⟩ = Except.ok ⟨⟨1990, 6, 5⟩⟩ ∧
      Birthday.str ⟨⟨1990, 6, 5⟩⟩ = "05.06.1990" :=
  ⟨rfl, rfl⟩

/-- C5 (amended): Birthday construction succeeds exactly when the trimmed
string parses as day-dot-month-dot-year with one- or two-digit day and
month, a four-digit year, denoting a valid calendar date not later than
`today`; for inputs already in zero-padded `DD.MM.YYYY` form the round-trip
holds: construction stores the denoted date and `render` returns the input
string unchanged. -/
theorem birthday_lenient_format :
    (∀ (s : String) (today : Date),
      (∃ b, Birthday.init s today = Except.ok b) ↔
        ∃ dd, strptimeDMY (pyStrip s) = some dd ∧ dd.toDays ≤ today.toDays) ∧
    (∀ (d today : Date), d.Valid → d.toDays ≤ today.toDays →
      Birthday.init (Date.strftimeDMY d) today = Except.ok ⟨d⟩ ∧
        Birthday.str ⟨d⟩ = Date.strftimeDMY d) := by
  constructor
  · intro s today
    cases hp : strptimeDMY (pyStrip s) with
    | none => simp [Birthday.init, hp]
    | some dd =>
      by_cases hlt : today.toDays < dd.toDays
      · simp [Birthday.init, hp, hlt]
      · simp [Birthday.init, hp, hlt]
        omega
  · intro d today hv hle
    obtain ⟨hv1, hv2, hv3, hv4, hv5, hv6⟩ := hv
    have hm31 : daysInMonth d.year d.month ≤ 31 := daysInMonth_le d.year d.month
    have hstrip : pyStrip (Date.strftimeDMY d) = Date.strftimeDMY d :=
      pyStrip_eq_self_of_noSpace _ (strftimeDMY_noSpace d hv2 (by omega) (by omega))
    have hrt : strptimeDMY (Date.strftimeDMY d) = some d :=
      strptimeDMY_strftimeDMY d ⟨hv1, hv2, hv3, hv4, hv5, hv6⟩
    constructor
    · simp [Birthday.init, hstrip, hrt, Nat.not_lt.mpr hle]
    · rfl

/-- C5 witness: the padded string for 02.01.2000 is accepted on that same
day and round-trips. -/
theorem birthday_lenient_format_witness :
    Birthday.init (Date.strftimeDMY ⟨2000, 1, 2⟩) ⟨2000, 1, 2⟩ = Except.ok ⟨⟨2000, 1, 2⟩⟩ :=
  (birthday_lenient_format.2 ⟨2000, 1, 2⟩ ⟨2000, 1, 2⟩ (by decide) (by decide)).1

/-!  C6: atomicity of `edit_phone`. -/

theorem pyStrip_eq_self_of_isValid (s : String) (h : Phone.isValid s = true) :
    pyStrip s = s := by
  unfold Phone.isValid at h
  simp only [Bool.and_eq_true] at h
  exact pyStrip_eq_self_of_digits s h.2

theorem editPhoneInList_spec (oldRaw newRaw v : String) (ps : List Phone) :
    (∀ e l2, editPhoneInList oldRaw newRaw v ps = Except.error (e, l2) → l2 = ps) ∧
      (∀ l2, editPhoneInList oldRaw newRaw v ps = Except.ok l2 →
        Phone.isValid newRaw = true ∧ l2 = replaceFirst ps v (pyStrip newRaw)) := by
  induction ps with
  | nil =>
    constructor
    · intro e l2 h
      simp [editPhoneInList] at h
      exact h.2
    · intro l2 h
      simp [editPhoneInList] at h
  | cons p rest ih =>
    cases hveq : p.value == v with
    | true =>
      cases hval : Phone.isValid newRaw with
      | true =>
        constructor
        · intro e l2 h
          simp [editPhoneInList, Phone.edit, hveq, hval] at h
        · intro l2 h
          simp [editPhoneInList, Phone.edit, hveq, hval] at h
          refine ⟨rfl, ?_⟩
          simp [replaceFirst, hveq, h]
      | false =>
        constructor
        · intro e l2 h
          simp [editPhoneInList, Phone.edit, hveq, hval] at h
          rcases h with ⟨h1, h2⟩
          first
            | exact h2
            | exact h2.symm
        · intro l2 h
          simp [editPhoneInList, Phone.edit, hveq, hval] at h
    | false =>
      cases hres : editPhoneInList oldRaw newRaw v rest with
      | error pe =>
        constructor
        · intro e l2 h
          simp [editPhoneInList, hveq, hres] at h
          rw [← h.2, ih.1 pe.1 pe.2 (by rw [hres])]
        · intro l2 h
          simp [editPhoneInList, hveq, hres] at h
      | ok rest2 =>
        constructor
        · intro e l2 h
          simp [editPhoneInList, hveq, hres] at h
        · intro l2 h
          simp [editPhoneInList, hveq, hres] at h
          obtain ⟨hnew, hrest2⟩ := ih.2 rest2 (by rw [hres])
          refine ⟨hnew, ?_⟩
          rw [← h, hrest2]
          simp [replaceFirst, hveq]

/-- C6: `edit_phone` failure is atomic — on any raised error (malformed
`old`, no stored phone equal to `old`, or malformed `new`) the record's
phone sequence is exactly what it was — and on success only the first
stored phone equal to `old` has its value replaced by `new`, in place. -/
theorem edit_phone_atomic (r : Record) (oldPhone newPhone : String) :
    (∀ e r2, Record.edit_phone r oldPhone newPhone = Except.error (e, r2) → r2 = r) ∧
      (∀ r2, Record.edit_phone r oldPhone newPhone = Except.ok r2 →
        r2.name = r.name ∧ r2.birthday = r.birthday ∧
          r2.phones = replaceFirst r.phones oldPhone newPhone) := by
  cases hq : Phone.init oldPhone with
  | error e0 =>
    constructor
    · intro e r2 h
      simp [Record.edit_phone, hq] at h
      rcases h with ⟨h1, h2⟩
      first
        | exact h2
        | exact h2.symm
    · intro r2 h
      simp [Record.edit_phone, hq] at h
  | ok q =>
    have hov : Phone.isValid oldPhone = true := by
      cases hval : Phone.isValid oldPhone
      · exfalso
        unfold Phone.init at hq
        rw [hval] at hq
        simp at hq
      · rfl
    have hqv : q.value = oldPhone := by
      unfold Phone.init at hq
      rw [hov] at hq
      simp at hq
      rw [← hq]
      exact pyStrip_eq_self_of_isValid oldPhone hov
    obtain ⟨ihe, iho⟩ := editPhoneInList_spec oldPhone newPhone q.value r.phones
    cases hres : editPhoneInList oldPhone newPhone q.value r.phones with
    | error pe =>
      constructor
      · intro e r2 h
        simp [Record.edit_phone, hq, hres] at h
        have hpe : pe.2 = r.phones := ihe pe.1 pe.2 (by rw [hres])
        rw [← h.2, hpe]
      · intro r2 h
        simp [Record.edit_phone, hq, hres] at h
    | ok ps2 =>
      constructor
      · intro e r2 h
        simp [Record.edit_phone, hq, hres] at h
      · intro r2 h
        simp [Record.edit_phone, hq, hres] at h
        obtain ⟨hnew, hps2⟩ := iho ps2 (by rw [hres])
        rw [← h]
        refine ⟨rfl, rfl, ?_⟩
        show ps2 = replaceFirst r.phones oldPhone newPhone
        rw [hps2, hqv, pyStrip_eq_self_of_isValid newPhone hnew]

/-- C6 witness: a concrete successful edit replaces exactly the first
matching phone in place. -/
theorem edit_phone_atomic_witness :
    (Record.mk ⟨"Bob"⟩ [⟨"1234567890"⟩, ⟨"5550002222"⟩] none).phones =
      replaceFirst [⟨"1234567890"⟩, ⟨"5550001111"⟩] "5550001111" "5550002222" :=
  ((edit_phone_atomic ⟨⟨"Bob"⟩, [⟨"1234567890"⟩, ⟨"5550001111"⟩], none⟩
    "5550001111" "5550002222").2
    ⟨⟨"Bob"⟩, [⟨"1234567890"⟩, ⟨"5550002222"⟩], none⟩ rfl).2.2

/-!  C7: `find` sentinel versus `delete` error. -/

/-- C7: `AddressBook.find` returns the stored record when the name is a
key and the `None` sentinel otherwise, never raising; `AddressBook.delete`
removes the entry when present and raises `KeyError` when absent. -/
theorem find_sentinel_delete_error (book : AddressBook) (name : String) :
    (∀ r, book.find name = some r → (name, r) ∈ book.data) ∧
      (book.find name = none ↔ ∀ kv ∈ book.data, kv.1 ≠ name) ∧
      ((∃ kv ∈ book.data, kv.1 = name) →
        book.delete name = Except.ok ⟨delKey book.data name⟩) ∧
      ((∀ kv ∈ book.data, kv.1 ≠ name) →
        book.delete name =
          Except.error (PyErr.keyError ("Record with name " ++ name ++ " not found"))) := by
  refine ⟨?_, ?_, ?_, ?_⟩
  · intro r h
    unfold AddressBook.find at h
    cases hf : book.data.find? (fun kv => kv.1 == name) with
    | none => rw [hf] at h; exact absurd h (by simp)
    | some kv =>
      rw [hf] at h
      have hmem := List.mem_of_find?_eq_some hf
      have hp := List.find?_some hf
      obtain ⟨k1, r1⟩ := kv
      simp only [beq_iff_eq] at hp
      simp only [Option.map_some'] at h
      cases h
      cases hp
      exact hmem
  · simp [AddressBook.find, List.find?_eq_none]
  · rintro ⟨kv, hkv, hkey⟩
    unfold AddressBook.delete
    rw [if_pos]
    exact List.any_eq_true.mpr ⟨kv, hkv, by simp [hkey]⟩
  · intro hall
    unfold AddressBook.delete
    rw [if_neg]
    intro hany
    rw [List.any_eq_true] at hany
    obtain ⟨kv, hkv, hkey⟩ := hany
    exact hall kv hkv (by simpa using hkey)

/-- C7 witness: on a concrete one-entry book, deleting an absent name
raises `KeyError`. -/
theorem find_sentinel_delete_error_witness :
    AddressBook.delete ⟨[("Ann", ⟨⟨"Ann"⟩, [], none⟩)]⟩ "Zoe" =
      Except.error (PyErr.keyError ("Record with name " ++ "Zoe" ++ " not found")) :=
  (find_sentinel_delete_error ⟨[("Ann", ⟨⟨"Ann"⟩, [], none⟩)]⟩ "Zoe").2.2.2 (by decide)

/-!  C8: the key invariant of the address book. -/

theorem setKey_mem (l : List (String × Record)) (k : String) (r : Record)
    (kv2 : String × Record) (h : kv2 ∈ setKey l k r) : kv2 ∈ l ∨ kv2 = (k, r) := by
  induction l with
  | nil =>
    simp [setKey] at h
    exact Or.inr h
  | cons kv rest ih =>
    by_cases hk : kv.1 == k
    · simp only [setKey, if_pos hk, List.mem_cons] at h
      rcases h with rfl | h
      · exact Or.inr rfl
      · exact Or.inl (List.mem_cons_of_mem _ h)
    · simp only [setKey, if_neg hk, List.mem_cons] at h
      rcases h with rfl | h
      · exact Or.inl (List.mem_cons_self _ _)
      · rcases ih h with h2 | h2
        · exact Or.inl (List.mem_cons_of_mem _ h2)
        · exact Or.inr h2

theorem setKey_keys_mem (l : List (String × Record)) (k : String) (r : Record)
    (x : String) (h : x ∈ (setKey l k r).map Prod.fst) :
    x ∈ l.map Prod.fst ∨ x = k := by
  rw [List.mem_map] at h
  obtain ⟨kv2, hkv2, hx⟩ := h
  rcases setKey_mem l k r kv2 hkv2 with h2 | h2
  · exact Or.inl (hx ▸ List.mem_map_of_mem Prod.fst h2)
  · right
    rw [← hx, h2]

theorem setKey_keys_nodup (l : List (String × Record)) (k : String) (r : Record)
    (h : (l.map Prod.fst).Nodup) : ((setKey l k r).map Prod.fst).Nodup := by
  induction l with
  | nil => simp [setKey]
  | cons kv rest ih =>
    simp only [List.map_cons, List.nodup_cons] at h
    by_cases hk : kv.1 == k
    · have hkeq : kv.1 = k := by simpa using hk
      simp only [setKey, if_pos hk, List.map_cons, List.nodup_cons]
      exact ⟨hkeq ▸ h.1, h.2⟩
    · simp only [setKey, if_neg hk, List.map_cons, List.nodup_cons]
      refine ⟨?_, ih h.2⟩
      intro hbad
      rcases setKey_keys_mem rest k r kv.1 hbad with h2 | h2
      · exact h.1 h2
      · exact absurd h2 (by simpa using hk)

theorem delKey_sublist (l : List (String × Record)) (k : String) :
    List.Sublist (delKey l k) l := by
  induction l with
  | nil => simp [delKey]
  | cons kv rest ih =>
    by_cases hk : kv.1 == k
    · simp only [delKey, if_pos hk]
      exact List.sublist_cons_self kv rest
    · simp only [delKey, if_neg hk]
      exact List.Sublist.cons₂ kv ih

theorem goodBook_applyOp (book : AddressBook) (op : BookOp) (h : goodBook book) :
    goodBook (applyOp book op) := by
  cases op with
  | add r =>
    constructor
    · exact setKey_keys_nodup book.data r.name.value r h.1
    · intro kv hkv
      rcases setKey_mem book.data r.name.value r kv hkv with h2 | h2
      · exact h.2 kv h2
      · rw [h2]
  | del n =>
    by_cases hc : book.data.any (fun kv => kv.1 == n)
    · simp only [applyOp, AddressBook.delete, if_pos hc]
      constructor
      · exact h.1.sublist ((delKey_sublist book.data n).map Prod.fst)
      · intro kv hkv
        exact h.2 kv ((delKey_sublist book.data n).subset hkv)
    · simp only [applyOp, AddressBook.delete, if_neg hc]
      exact h

theorem goodBook_foldl (ops : List BookOp) (book : AddressBook) (h : goodBook book) :
    goodBook (ops.foldl applyOp book) := by
  induction ops generalizing book with
  | nil => exact h
  | cons op rest ih => exact ih (applyOp book op) (goodBook_applyOp book op h)

theorem find_setKey (l : List (String × Record)) (k : String) (r : Record) :
    (setKey l k r).find? (fun kv => kv.1 == k) = some (k, r) := by
  induction l with
  | nil => simp [setKey]
  | cons kv rest ih =>
    cases hk : kv.1 == k with
    | true =>
      have hkeq : kv.1 = k := by simpa using hk
      simp [setKey, hkeq]
    | false =>
      simp [setKey, hk, List.find?_cons, ih]

/-- C8: every book reachable from the empty book by `add_record` and
`delete` operations has pairwise-distinct keys, each equal to the name
field of its record; and `add_record` stores the record under its own name,
silently replacing any prior record with that name. -/
theorem book_keys_invariant (ops : List BookOp) :
    goodBook (runOps ops) ∧
      ∀ (book : AddressBook) (r : Record),
        (book.add_record r).find r.name.value = some r := by
  constructor
  · exact goodBook_foldl ops ⟨[]⟩ ⟨List.nodup_nil, by simp⟩
  · intro book r
    unfold AddressBook.find AddressBook.add_record
    rw [find_setKey]
    rfl

/-- C8 witness: a concrete add/add/delete run lands in a book satisfying
the invariant. -/
theorem book_keys_invariant_witness :
    goodBook (runOps [BookOp.add ⟨⟨"Ann"⟩, [], none⟩, BookOp.add ⟨⟨"Bo"⟩, [], none⟩,
      BookOp.del "Ann"]) :=
  (book_keys_invariant [BookOp.add ⟨⟨"Ann"⟩, [], none⟩, BookOp.add ⟨⟨"Bo"⟩, [], none⟩,
    BookOp.del "Ann"]).1

/-!  C9: add, find and remove of phones. -/

theorem removeFirst_length (ps : List Phone) (v : String) (h : ∃ x ∈ ps, x.value = v) :
    (removeFirst ps v).length + 1 = ps.length := by
  induction ps with
  | nil => simp at h
  | cons p rest ih =>
    cases hp : p.value == v with
    | true => simp [removeFirst, hp]
    | false =>
      obtain ⟨x, hx, hxv⟩ := h
      rcases List.mem_cons.mp hx with rfl | hx2
      · rw [hxv] at hp
        simp at hp
      · have hrec := ih ⟨x, hx2, hxv⟩
        simp only [removeFirst, hp, Bool.false_eq_true, if_false, List.length_cons]
        omega

/-- C9: for a valid ten-digit string `p`, `add_phone p` succeeds, a
subsequent `find_phone p` returns a phone equal by value to `p`, and a
subsequent `remove_phone p` removes one matching phone, returning the
record's phone count to what it was before the add. -/
theorem add_find_remove_phone (r : Record) (p : String) (h : Phone.isValid p = true) :
    ∃ r1, Record.add_phone r p = Except.ok r1 ∧
      (∃ q, Record.find_phone r1 p = Except.ok q ∧ q.value = p) ∧
      (∃ r2, Record.remove_phone r1 p = Except.ok r2 ∧
        r2.phones.length = r.phones.length) := by
  have hstrip := pyStrip_eq_self_of_isValid p h
  have hinit : Phone.init p = Except.ok ⟨p⟩ := by
    simp [Phone.init, h, hstrip]
  have hadd : Record.add_phone r p = Except.ok { r with phones := r.phones ++ [⟨p⟩] } := by
    simp [Record.add_phone, hinit, Except.map]
  have hsome : ∃ q, List.find? (fun x => Phone.eq x ⟨p⟩) (r.phones ++ [(⟨p⟩ : Phone)]) = some q := by
    cases hf : List.find? (fun x => Phone.eq x ⟨p⟩) (r.phones ++ [(⟨p⟩ : Phone)]) with
    | some q2 => exact ⟨q2, rfl⟩
    | none =>
      have hcontra := List.find?_eq_none.mp hf ⟨p⟩ (by simp)
      simp [Phone.eq] at hcontra
  obtain ⟨q, hq⟩ := hsome
  have hqv : q.value = p := by
    have := List.find?_some hq
    simpa [Phone.eq] using this
  have hfind : Record.find_phone { r with phones := r.phones ++ [⟨p⟩] } p = Except.ok q := by
    simp only [Record.find_phone, hinit, hq]
  refine ⟨{ r with phones := r.phones ++ [⟨p⟩] }, hadd, ⟨q, hfind, hqv⟩, ?_⟩
  refine ⟨{ r with phones := removeFirst (r.phones ++ [⟨p⟩]) q.value }, ?_, ?_⟩
  · simp [Record.remove_phone, hfind, Except.map]
  · have hlen := removeFirst_length (r.phones ++ [⟨p⟩]) q.value ⟨⟨p⟩, by simp, by simp [hqv]⟩
    simp only [List.length_append, List.length_cons, List.length_nil] at hlen
    simpa using hlen

/-!  C1, C2, C3: the upcoming-birthdays window. -/

/-- C1 counterexample: with reference date 01.06.2024, a birthday occurring
on 08.06.2024 — seven days after the reference date, hence outside the
claimed closed interval [reference, reference + 6 days] — is still
included by `get_upcoming_birthdays`. -/
theorem upcoming_window_counterexample :
    AddressBook.get_upcoming_birthdays
        ⟨[("Kim", ⟨⟨"Kim"⟩, [], some ⟨⟨1990, 6, 8⟩⟩⟩)]⟩ ⟨2024, 6, 1⟩ =
        Except.ok [("Kim", "08.06.2024")] ∧
      (Date.mk 2024 6 8).toDays = (Date.mk 2024 6 1).toDays + 7 :=
  ⟨rfl, rfl⟩

/-- C1 (amended): for a record with a birthday, the (possibly rolled-forward)
occurrence is included exactly when it lies in the closed interval
[reference_date, reference_date + 7 days] — an eight-day window inclusive at
both ends, from `today + timedelta(days=7)` — provided both year projections
are representable dates (otherwise the call raises, see C2). -/
theorem upcoming_window_eight_days (n : String) (ps : List Phone) (b today : Date)
    (h1 : 1 ≤ today.year) (h2 : today.year ≤ 9999)
    (h3 : b.day ≤ daysInMonth today.year b.month)
    (h4 : (Date.mk today.year b.month b.day).toDays < today.toDays →
      today.year + 1 ≤ 9999 ∧ b.day ≤ daysInMonth (today.year + 1) b.month) :
    ∀ occ, occ = (if (Date.mk today.year b.month b.day).toDays < today.toDays
        then Date.mk (today.year + 1) b.month b.day
        else Date.mk today.year b.month b.day) →
      AddressBook.get_upcoming_birthdays ⟨[(n, ⟨⟨n⟩, ps, some ⟨b⟩⟩)]⟩ today =
        Except.ok (if today.toDays ≤ occ.toDays ∧ occ.toDays ≤ today.toDays + 7
          then [(n, Date.strftimeDMY occ)] else []) := by
  intro occ hocc
  have hrep : Date.replaceYear b today.year = Except.ok (Date.mk today.year b.month b.day) := by
    unfold Date.replaceYear
    rw [if_pos ⟨h1, h2⟩]
    rw [if_pos h3]
  by_cases hroll : (Date.mk today.year b.month b.day).toDays < today.toDays
  · obtain ⟨h5, h6⟩ := h4 hroll
    have hrep2 : Date.replaceYear (Date.mk today.year b.month b.day) (today.year + 1) =
        Except.ok (Date.mk (today.year + 1) b.month b.day) := by
      unfold Date.replaceYear
      rw [if_pos ⟨by omega, h5⟩]
      rw [if_pos h6]
    rw [if_pos hroll] at hocc
    subst hocc
    by_cases hw : today.toDays ≤ (Date.mk (today.year + 1) b.month b.day).toDays ∧
        (Date.mk (today.year + 1) b.month b.day).toDays ≤ today.toDays + 7
    · simp [AddressBook.get_upcoming_birthdays, collectUpcoming, processRecord,
        hrep, hroll, hrep2, hw, Except.map]
    · simp [AddressBook.get_upcoming_birthdays, collectUpcoming, processRecord,
        hrep, hroll, hrep2, hw]
  · rw [if_neg hroll] at hocc
    subst hocc
    by_cases hw : today.toDays ≤ (Date.mk today.year b.month b.day).toDays ∧
        (Date.mk today.year b.month b.day).toDays ≤ today.toDays + 7
    · simp [AddressBook.get_upcoming_birthdays, collectUpcoming, processRecord,
        hrep, hroll, hw, Except.map]
    · simp [AddressBook.get_upcoming_birthdays, collectUpcoming, processRecord,
        hrep, hroll, hw]

/-- C1 witness: a birthday five days ahead is reported with this year's
occurrence date. -/
theorem upcoming_window_eight_days_witness :
    AddressBook.get_upcoming_birthdays
        ⟨[("Lu", ⟨⟨"Lu"⟩, [], some ⟨⟨1995, 7, 9⟩⟩⟩)]⟩ ⟨2024, 7, 2⟩ =
      Except.ok [("Lu", "09.07.2024")] := by
  have h := upcoming_window_eight_days "Lu" [] ⟨1995, 7, 9⟩ ⟨2024, 7, 2⟩ (by decide) (by decide)
      (by decide) (fun hlt => absurd hlt (by decide)) (Date.mk 2024 7 9) (by decide)
  exact h.trans (congrArg Except.ok (by decide))

/-- C2: a record with birthday 29.02.2020 makes `get_upcoming_birthdays`
raise `ValueError` from `date.replace` when the reference year 2023 is not
a leap year: the code crashes instead of applying a fallback rule. -/
theorem leap_day_crash :
    AddressBook.get_upcoming_birthdays
        ⟨[("Eve", ⟨⟨"Eve"⟩, [], some ⟨⟨2020, 2, 29⟩⟩⟩)]⟩ ⟨2023, 3, 1⟩ =
      Except.error (PyErr.valueError "day is out of range for month") :=
  rfl

/-- C3 counterexample: with reference date 20.06.2024 the record with
birthday 15.06.1990 is rolled forward to 15.06.2025, which lies outside
the window, so `get_upcoming_birthdays` excludes it — the claim says it is
included with computed date 15.06.2025. -/
theorem june_window_counterexample :
    AddressBook.get_upcoming_birthdays
        ⟨[("Alice", ⟨⟨"Alice"⟩, [], some ⟨⟨1990, 6, 15⟩⟩⟩)]⟩ ⟨2024, 6, 20⟩ =
      Except.ok [] :=
  rfl

/-- C3 (amended): for a record with birthday 15.06.1990, reference date
10.06.2024 includes it with computed date 15.06.2024; reference date
20.06.2024 excludes it (the rolled-forward occurrence 15.06.2025 lies far
outside the window); reference date 01.01.2024 excludes it. -/
theorem june_window_examples :
    AddressBook.get_upcoming_birthdays
        ⟨[("Alice", ⟨⟨"Alice"⟩, [], some ⟨⟨1990, 6, 15⟩⟩⟩)]⟩ ⟨2024, 6, 10⟩ =
        Except.ok [("Alice", "15.06.2024")] ∧
      AddressBook.get_upcoming_birthdays
          ⟨[("Alice", ⟨⟨"Alice"⟩, [], some ⟨⟨1990, 6, 15⟩⟩⟩)]⟩ ⟨2024, 6, 20⟩ =
        Except.ok [] ∧
      AddressBook.get_upcoming_birthdays
          ⟨[("Alice", ⟨⟨"Alice"⟩, [], some ⟨⟨1990, 6, 15⟩⟩⟩)]⟩ ⟨2024, 1, 1⟩ =
        Except.ok [] :=
  ⟨rfl, rfl, rfl⟩

/-!  C10: the query neither mutates the book nor reorders it. -/

theorem collectUpcomingSt_snd (rs : List (String × Record)) (today : Date) :
    (collectUpcomingSt rs today).2 = rs := by
  induction rs with
  | nil => rfl
  | cons kv rest ih =>
    obtain ⟨k, r⟩ := kv
    cases hp : processRecord r today with
    | error e => simp [collectUpcomingSt, hp]
    | ok o =>
      cases o with
      | none => simp [collectUpcomingSt, hp, ih]
      | some entry => simp [collectUpcomingSt, hp, ih]

theorem collectUpcomingSt_fst (rs : List (String × Record)) (today : Date) :
    (collectUpcomingSt rs today).1 = collectUpcoming rs today := by
  induction rs with
  | nil => rfl
  | cons kv rest ih =>
    obtain ⟨k, r⟩ := kv
    cases hp : processRecord r today with
    | error e => simp [collectUpcomingSt, collectUpcoming, hp]
    | ok o =>
      cases o with
      | none => simp [collectUpcomingSt, collectUpcoming, hp, ih]
      | some entry => simp [collectUpcomingSt, collectUpcoming, hp, ih]

theorem collectUpcoming_all_ok (rs : List (String × Record)) (today : Date)
    (h : ∀ kv ∈ rs, ∃ o, processRecord kv.2 today = Except.ok o) :
    collectUpcoming rs today = Except.ok (rs.filterMap fun kv => okEntry kv.2 today) := by
  induction rs with
  | nil => rfl
  | cons kv rest ih =>
    obtain ⟨o, ho⟩ := h kv (by simp)
    have hrest := ih (fun kv2 hk => h kv2 (by simp [hk]))
    cases o with
    | none => simp [collectUpcoming, ho, hrest, List.filterMap_cons, okEntry]
    | some entry =>
      simp [collectUpcoming, ho, hrest, List.filterMap_cons, okEntry, Except.map]

/-- C10: `get_upcoming_birthdays` is a pure query — the state-threaded run
hands the book back unchanged (every record, phone list and birthday
intact) while computing the same result, and when no record raises, the
result lists the contributing records in the book's insertion order. -/
theorem upcoming_pure_query (book : AddressBook) (today : Date) :
    (collectUpcomingSt book.data today).2 = book.data ∧
      (collectUpcomingSt book.data today).1 = book.get_upcoming_birthdays today ∧
      ((∀ kv ∈ book.data, ∃ o, processRecord kv.2 today = Except.ok o) →
        book.get_upcoming_birthdays today =
          Except.ok (book.data.filterMap fun kv => okEntry kv.2 today)) :=
  ⟨collectUpcomingSt_snd book.data today, collectUpcomingSt_fst book.data today,
    fun h => collectUpcoming_all_ok book.data today h⟩

/-- C10 witness: on a concrete one-record book the query returns exactly
the in-order filter-map of its records. -/
theorem upcoming_pure_query_witness :
    AddressBook.get_upcoming_birthdays
        ⟨[("Dot", ⟨⟨"Dot"⟩, [], some ⟨⟨1991, 3, 4⟩⟩⟩)]⟩ ⟨2024, 3, 1⟩ =
      Except.ok (List.filterMap (fun kv => okEntry kv.2 ⟨2024, 3, 1⟩)
        [("Dot", (⟨⟨"Dot"⟩, [], some ⟨⟨1991, 3, 4⟩⟩⟩ : Record))]) :=
  (upcoming_pure_query ⟨[("Dot", ⟨⟨"Dot"⟩, [], some ⟨⟨1991, 3, 4⟩⟩⟩)]⟩ ⟨2024, 3, 1⟩).2.2
    (by
      intro kv hk
      simp only [List.mem_singleton] at hk
      subst hk
      exact ⟨some ("Dot", "04.03.2024"), rfl⟩)

/-- C9 witness: concrete run on a record that already holds one phone. -/
theorem add_find_remove_phone_witness :
    Phone.isValid "0987654321" = true ∧
      (∃ r1, Record.add_phone ⟨⟨"Cyd"⟩, [⟨"1112223333"⟩], none⟩ "0987654321" = Except.ok r1 ∧
        (∃ q, Record.find_phone r1 "0987654321" = Except.ok q ∧ q.value = "0987654321") ∧
        (∃ r2, Record.remove_phone r1 "0987654321" = Except.ok r2 ∧
          r2.phones.length = (Record.mk ⟨"Cyd"⟩ [⟨"1112223333"⟩] none).phones.length)) :=
  ⟨rfl, add_find_remove_phone ⟨⟨"Cyd"⟩, [⟨"1112223333"⟩], none⟩ "0987654321" rfl⟩

end Bot
